import Mathlib

/-!
# DisplayObject: a buffer-owning handle

Shallow embedding of `src/controller/DisplayObject.h`.

The class has two members (`char *buffer`, `const size_t bufferSize`), a
constructor that runs `buffer = new char[bufferSize]` and a destructor that
runs `delete[] buffer`.  The free store the two expressions act on is made
explicit as a `Heap`; the placement policy of the free store is not part of
the source and is a parameter (`Allocator`).
-/

namespace XBee

set_option linter.unusedVariables false

/-! ## The free store -/

/-- A pointer value (`char *`). -/
abbrev Addr := Nat

/-- The null pointer value. -/
def nullptr : Addr := 0

/-- One array block handed out by `new char[n]`.  A cell is `none` while it
holds an indeterminate value (a `char` array is default-initialised, that is,
not initialised) and `some v` once `v` has been stored in it. -/
structure Block where
  addr : Addr
  cells : List (Option Nat)
deriving DecidableEq, Repr

/-- What a program does to the free store, in program order. -/
inductive Event where
  /-- A request `new char[n]` and what it returned (`none`: not satisfied). -/
  | newArray (n : Nat) (result : Option Addr)
  /-- A release `delete[] p` of a live block. -/
  | deleteArray (p : Addr)
deriving DecidableEq, Repr

/-- The free store: the live blocks (most recent first) and the history of
the requests made to it. -/
structure Heap where
  live : List Block
  trace : List Event
deriving DecidableEq, Repr

/-- The ways an operation on the free store fails. -/
inductive Fault where
  /-- The exception `std::bad_alloc` raised by `new char[n]`. -/
  | AllocationFailure
  /-- A `delete[] p` whose operand is neither null nor a live block
  (undefined behaviour in C++). -/
  | InvalidRelease
deriving DecidableEq, Repr

/-- The base addresses of the live blocks. -/
def Heap.addrs (H : Heap) : List Addr := H.live.map Block.addr

/-- Whether `p` is the base address of a live block. -/
def Heap.isLive (H : Heap) (p : Addr) : Bool := H.live.any (fun b => b.addr == p)

/-- The free store holds no block at the null address and no two blocks at
the same address. -/
def Heap.WF (H : Heap) : Prop := nullptr ∉ H.addrs ∧ H.addrs.Nodup

instance (H : Heap) : Decidable H.WF := by
  unfold Heap.WF
  infer_instance

/-- The placement policy of the free store: where (and whether) a request
for `n` units is placed.  A returned address is never null and never the base
of a block that is still live. -/
structure Allocator where
  pick : Heap → Nat → Option Addr
  nonnull : ∀ H n a, pick H n = some a → a ≠ nullptr
  fresh : ∀ H n a, pick H n = some a → a ∉ H.addrs

/-- The expression `new char[n]`: one request to the allocator; the block it
yields has `n` cells, none of them initialised; a request that is not
satisfied raises `std::bad_alloc`. -/
def newArray (A : Allocator) (n : Nat) (H : Heap) : Except Fault Addr × Heap :=
  match A.pick H n with
  | none =>
    (.error .AllocationFailure,
      { live := H.live, trace := H.trace ++ [.newArray n none] })
  | some a =>
    (.ok a,
      { live := ⟨a, List.replicate n none⟩ :: H.live,
        trace := H.trace ++ [.newArray n (some a)] })

/-- The expression `delete[] p`: nothing for a null operand, the release of
the block at `p` when it is live, undefined otherwise. -/
def deleteArray (p : Addr) (H : Heap) : Except Fault Unit × Heap :=
  if p = nullptr then (.ok (), H)
  else if H.isLive p then
    (.ok (),
      { live := H.live.filter (fun b => b.addr != p),
        trace := H.trace ++ [.deleteArray p] })
  else (.error .InvalidRelease, H)

/-! ## The class -/

/-- The data members of `class DisplayObject`. -/
structure DisplayObject where
  buffer : Addr
  bufferSize : Nat
deriving DecidableEq, Repr

/-- The constructor
`DisplayObject(const size_t bufferSize, const char* defaultBuffer = "")`:
the member initialiser `bufferSize(bufferSize)`, then
`buffer = new char[bufferSize]`.  `defaultBuffer` is not used. -/
def DisplayObject.ctor (A : Allocator) (bufferSize : Nat)
    (defaultBuffer : String) (H : Heap) : Except Fault DisplayObject × Heap :=
  match newArray A bufferSize H with
  | (.ok p, H1) => (.ok { buffer := p, bufferSize := bufferSize }, H1)
  | (.error e, H1) => (.error e, H1)

/-- The constructor called without its second argument, which then takes the
declared default `""`. -/
def DisplayObject.ctorDefault (A : Allocator) (bufferSize : Nat)
    (H : Heap) : Except Fault DisplayObject × Heap :=
  DisplayObject.ctor A bufferSize "" H

/-- The destructor `~DisplayObject()`: `delete[] buffer`. -/
def DisplayObject.dtor (self : DisplayObject) (H : Heap) :
    Except Fault Unit × Heap :=
  deleteArray self.buffer H

/-- The copy constructor the class definition leaves to the compiler: a
memberwise copy, with no effect on the free store. -/
def DisplayObject.copyCtor (other : DisplayObject) : DisplayObject :=
  { buffer := other.buffer, bufferSize := other.bufferSize }

/-! ## Programs over the class -/

/-- The block statement `{ DisplayObject x(bufferSize, defaultBuffer); }`:
construction, then destruction at the end of the scope.  When the
constructor throws there is no object and no destructor call. -/
def scopedObject (A : Allocator) (bufferSize : Nat) (defaultBuffer : String)
    (H : Heap) : Except Fault Unit × Heap :=
  match DisplayObject.ctor A bufferSize defaultBuffer H with
  | (.ok x, H1) => x.dtor H1
  | (.error e, H1) => (.error e, H1)

/-- Construct one handle per requested `(bufferSize, defaultBuffer)`, in
order; the first failure ends the run. -/
def constructAll (A : Allocator) :
    List (Nat × String) → Heap → Except Fault (List DisplayObject) × Heap
  | [], H => (.ok [], H)
  | (n, d) :: rest, H =>
    match DisplayObject.ctor A n d H with
    | (.error e, H1) => (.error e, H1)
    | (.ok x, H1) =>
      match constructAll A rest H1 with
      | (.error e, H2) => (.error e, H2)
      | (.ok xs, H2) => (.ok (x :: xs), H2)

/-- Run the destructor of each handle of the list, in list order; the first
fault ends the run. -/
def destroyAll : List DisplayObject → Heap → Except Fault Unit × Heap
  | [], H => (.ok (), H)
  | x :: rest, H =>
    match x.dtor H with
    | (.error e, H1) => (.error e, H1)
    | (.ok (), H1) => destroyAll rest H1

/-- The lifecycle state of one object. -/
inductive Lifecycle where
  | live (x : DisplayObject)
  | destroyed
deriving DecidableEq, Repr

/-- A program state: the free store and the objects created so far, each at
the position given by its order of creation. -/
structure World where
  heap : Heap
  objs : List Lifecycle
deriving DecidableEq, Repr

/-- The operations the class definition makes available to a program. -/
inductive Op where
  /-- A definition `DisplayObject x(bufferSize, defaultBuffer)`. -/
  | construct (bufferSize : Nat) (defaultBuffer : String)
  /-- A definition `DisplayObject y(x)` for the object `x` at position `src`. -/
  | copy (src : Nat)
  /-- The end of the lifetime of the object at position `i`. -/
  | destroy (i : Nat)
deriving DecidableEq, Repr

/-- Whether the operation is one the class itself defines (its constructor
or its destructor). -/
def Op.isDeclared : Op → Bool
  | .construct _ _ => true
  | .copy _ => false
  | .destroy _ => true

/-- One operation.  `none` when the operation has no defined outcome: it
names no live object, or the destructor call is undefined.  A constructor
that throws creates no object. -/
def step (A : Allocator) (W : World) : Op → Option World
  | .construct n d =>
    match DisplayObject.ctor A n d W.heap with
    | (.ok x, H1) => some { heap := H1, objs := W.objs ++ [.live x] }
    | (.error _, H1) => some { heap := H1, objs := W.objs }
  | .copy src =>
    match W.objs[src]? with
    | some (.live x) => some { heap := W.heap, objs := W.objs ++ [.live x.copyCtor] }
    | _ => none
  | .destroy i =>
    match W.objs[i]? with
    | some (.live x) =>
      match x.dtor W.heap with
      | (.ok (), H1) => some { heap := H1, objs := W.objs.set i .destroyed }
      | (.error _, _) => none
    | _ => none

/-- A sequence of operations, left to right. -/
def run (A : Allocator) : List Op → World → Option World
  | [], W => some W
  | op :: rest, W =>
    match step A W op with
    | some W1 => run A rest W1
    | none => none

/-- The handles among the objects that are live, in order of creation. -/
def liveHandles : List Lifecycle → List DisplayObject
  | [] => []
  | .live x :: rest => x :: liveHandles rest
  | .destroyed :: rest => liveHandles rest

/-- The handles that are live in a program state, in order of creation. -/
def World.handles (W : World) : List DisplayObject := liveHandles W.objs

/-- Sole ownership: the free store is well formed, every live handle's block
is live and has as many cells as the handle records, and no two live handles
hold the same block. -/
def World.Owned (W : World) : Prop :=
  W.heap.WF ∧
  (∀ x ∈ W.handles, ∃ b ∈ W.heap.live, b.addr = x.buffer ∧ b.cells.length = x.bufferSize) ∧
  (W.handles.map DisplayObject.buffer).Nodup

instance (W : World) : Decidable W.Owned := by
  unfold World.Owned
  infer_instance

/-- The state a program starts in: an empty free store and no object. -/
def World.init : World := { heap := { live := [], trace := [] }, objs := [] }

/-- The cells a block would begin with had the characters of `s` been stored
in it. -/
def storedString (s : String) : List (Option Nat) :=
  s.toList.map (fun ch => some ch.toNat)

/-! ## A concrete allocator -/

/-- The first address above every live block. -/
def top : List Block → Nat
  | [] => 0
  | b :: rest => max (b.addr + b.cells.length) (top rest)

/-- Where the bump policy places a request for `n` units in a store of
`cap` units: right above the live blocks, when it fits. -/
def bumpPick (cap : Nat) (H : Heap) (n : Nat) : Option Addr :=
  if top H.live + 1 + n ≤ cap then some (top H.live + 1) else none

/-- The bump policy over a store of `cap` units. -/
def bumpAllocator (cap : Nat) : Allocator where
  pick := bumpPick cap
  nonnull := by
    intro H n a h
    unfold bumpPick at h
    split at h
    · cases h; simp [nullptr]
    · cases h
  fresh := by
    intro H n a h
    have below : ∀ l : List Block, ∀ b ∈ l, b.addr ≤ top l := by
      intro l
      induction l with
      | nil => intro b hb; cases hb
      | cons c rest ih =>
        intro b hb
        rcases List.mem_cons.mp hb with rfl | hb
        · exact Nat.le_trans (Nat.le_add_right _ _) (Nat.le_max_left _ _)
        · exact Nat.le_trans (ih b hb) (Nat.le_max_right _ _)
    unfold bumpPick at h
    split at h
    · cases h
      intro hmem
      obtain ⟨b, hb, hab⟩ := List.mem_map.mp hmem
      have hle : b.addr ≤ top H.live := below H.live b hb
      rw [hab] at hle
      exact Nat.not_succ_le_self _ hle
    · cases h

/-! ## Basic facts about the free store -/

theorem newArray_some (A : Allocator) (n : Nat) (H : Heap) (a : Addr)
    (h : A.pick H n = some a) :
    newArray A n H =
      (.ok a, { live := ⟨a, List.replicate n none⟩ :: H.live,
                trace := H.trace ++ [.newArray n (some a)] }) := by
  simp [newArray, h]

theorem newArray_none (A : Allocator) (n : Nat) (H : Heap)
    (h : A.pick H n = none) :
    newArray A n H =
      (.error .AllocationFailure,
        { live := H.live, trace := H.trace ++ [.newArray n none] }) := by
  simp [newArray, h]

theorem ctor_some (A : Allocator) (n : Nat) (d : String) (H : Heap) (a : Addr)
    (h : A.pick H n = some a) :
    DisplayObject.ctor A n d H =
      (.ok { buffer := a, bufferSize := n },
        { live := ⟨a, List.replicate n none⟩ :: H.live,
          trace := H.trace ++ [.newArray n (some a)] }) := by
  simp [DisplayObject.ctor, newArray_some A n H a h]

theorem ctor_none (A : Allocator) (n : Nat) (d : String) (H : Heap)
    (h : A.pick H n = none) :
    DisplayObject.ctor A n d H =
      (.error .AllocationFailure,
        { live := H.live, trace := H.trace ++ [.newArray n none] }) := by
  simp [DisplayObject.ctor, newArray_none A n H h]

theorem isLive_iff (H : Heap) (p : Addr) : H.isLive p = true ↔ p ∈ H.addrs := by
  simp [Heap.isLive, Heap.addrs]

theorem filter_addr_ne_of_not_mem (l : List Block) (p : Addr)
    (h : p ∉ l.map Block.addr) : l.filter (fun b => b.addr != p) = l := by
  rw [List.filter_eq_self]
  intro b hb
  have : b.addr ≠ p := fun e => h (e ▸ List.mem_map_of_mem Block.addr hb)
  simpa using this

theorem deleteArray_live (p : Addr) (H : Heap) (h0 : p ≠ nullptr)
    (h : p ∈ H.addrs) :
    deleteArray p H =
      (.ok (), { live := H.live.filter (fun b => b.addr != p),
                 trace := H.trace ++ [.deleteArray p] }) := by
  have := (isLive_iff H p).mpr h
  simp [deleteArray, h0, this]

theorem deleteArray_dead (p : Addr) (H : Heap) (h0 : p ≠ nullptr)
    (h : p ∉ H.addrs) :
    deleteArray p H = (.error .InvalidRelease, H) := by
  have : H.isLive p = false := by
    rw [← Bool.not_eq_true, isLive_iff]; exact h
  simp [deleteArray, h0, this]

theorem dtor_after_ctor (A : Allocator) (n : Nat) (H : Heap) (a : Addr)
    (h : A.pick H n = some a) :
    DisplayObject.dtor { buffer := a, bufferSize := n }
        { live := ⟨a, List.replicate n none⟩ :: H.live,
          trace := H.trace ++ [.newArray n (some a)] } =
      (.ok (), { live := H.live,
                 trace := H.trace ++ [.newArray n (some a), .deleteArray a] }) := by
  have h0 := A.nonnull H n a h
  have hf := A.fresh H n a h
  unfold DisplayObject.dtor
  rw [deleteArray_live _ _ h0 (by simp [Heap.addrs])]
  have hl : H.live.filter (fun b => b.addr != a) = H.live :=
    filter_addr_ne_of_not_mem H.live a hf
  simp [hl]

/-! ## Construction and destruction of one handle -/

/-- C2: when the allocator satisfies the request for `c` units at `a`, the
program that constructs a handle of capacity `c` and destroys it at once ends
without fault, with the live blocks of the free store as they were before, and
has made exactly two requests to the free store: the allocation that returned
`a`, then the release of `a`. -/
theorem scopedObject_restores (A : Allocator) (c : Nat) (d : String) (H : Heap)
    (a : Addr) (h : A.pick H c = some a) :
    scopedObject A c d H =
      (.ok (), { live := H.live,
                 trace := H.trace ++ [.newArray c (some a), .deleteArray a] }) := by
  unfold scopedObject
  rw [ctor_some A c d H a h]
  exact dtor_after_ctor A c H a h

theorem scopedObject_restores_witness :
    (bumpAllocator 64).pick { live := [], trace := [] } 16 = some 1 ∧
    scopedObject (bumpAllocator 64) 16 "hi" { live := [], trace := [] } =
      (.ok (), { live := [], trace := [.newArray 16 (some 1), .deleteArray 1] }) :=
  ⟨rfl, scopedObject_restores (bumpAllocator 64) 16 "hi" { live := [], trace := [] } 1 rfl⟩

/-- C4: the constructor does not depend on its second argument: two
constructions from the same free store with the same capacity return the same
handle and the same free store whatever the two initial values are (the
declared default included); the free store it leaves is the one `new char[c]`
alone leaves; and the block of the new handle is the only live block at the
handle's address and has `c` cells, all of them uninitialised, so that no
non-empty initial value has been stored at its beginning. -/
theorem ctor_ignores_defaultBuffer (A : Allocator) (c : Nat) (i1 i2 : String)
    (H : Heap) :
    DisplayObject.ctor A c i1 H = DisplayObject.ctor A c i2 H ∧
    DisplayObject.ctor A c i1 H = DisplayObject.ctorDefault A c H ∧
    (DisplayObject.ctor A c i1 H).2 = (newArray A c H).2 ∧
    (∀ x, (DisplayObject.ctor A c i1 H).1 = .ok x →
      (⟨x.buffer, List.replicate c none⟩ : Block) ∈ (DisplayObject.ctor A c i1 H).2.live ∧
      ∀ b ∈ (DisplayObject.ctor A c i1 H).2.live, b.addr = x.buffer →
        b.cells = List.replicate c none ∧
        (storedString i1 ≠ [] → ¬ storedString i1 <+: b.cells)) := by
  refine ⟨rfl, rfl, ?_, ?_⟩
  · unfold DisplayObject.ctor
    cases hp : A.pick H c with
    | none => simp [newArray, hp]
    | some a => simp [newArray, hp]
  · intro x hx
    cases hp : A.pick H c with
    | none => rw [ctor_none A c i1 H hp] at hx; cases hx
    | some a =>
      have hf := A.fresh H c a hp
      rw [ctor_some A c i1 H a hp] at hx ⊢
      simp only at hx
      cases hx
      refine ⟨List.mem_cons_self _ _, ?_⟩
      intro b hb hba
      have hcells : b.cells = List.replicate c none := by
        rcases List.mem_cons.mp hb with rfl | hb
        · rfl
        · have hba1 : b.addr = a := hba
          exact absurd (by rw [← hba1]; exact List.mem_map_of_mem Block.addr hb) hf
      refine ⟨hcells, ?_⟩
      intro hne hpre
      rw [hcells] at hpre
      cases hs : storedString i1 with
      | nil => exact hne hs
      | cons v rest =>
        have hv : v ∈ storedString i1 := by rw [hs]; exact List.mem_cons_self _ _
        have hv1 : v ∈ List.replicate c (none : Option Nat) := hpre.subset hv
        have hv2 : v = none := List.eq_of_mem_replicate hv1
        obtain ⟨ch, _, hch⟩ := List.mem_map.mp hv
        rw [hv2] at hch
        cases hch

theorem ctor_ignores_defaultBuffer_witness :
    (DisplayObject.ctor (bumpAllocator 64) 16 "hi" { live := [], trace := [] }).1 =
        .ok { buffer := 1, bufferSize := 16 } ∧
    (∀ b ∈ (DisplayObject.ctor (bumpAllocator 64) 16 "hi" { live := [], trace := [] }).2.live,
      b.addr = 1 →
        b.cells = List.replicate 16 none ∧
        (storedString "hi" ≠ [] → ¬ storedString "hi" <+: b.cells)) :=
  ⟨rfl, ((ctor_ignores_defaultBuffer (bumpAllocator 64) 16 "hi" ""
      { live := [], trace := [] }).2.2.2 { buffer := 1, bufferSize := 16 } rfl).2⟩

/-- C5: the constructor fails exactly when the allocator does not satisfy the
request for `c` units; the only fault it ever reports is `AllocationFailure`;
and whenever the allocator satisfies the request, whatever `c` is, the
constructor returns a handle and the destructor of that handle, run next,
ends without fault. -/
theorem ctor_fails_iff (A : Allocator) (c : Nat) (d : String) (H : Heap) :
    ((∃ e, (DisplayObject.ctor A c d H).1 = .error e) ↔ A.pick H c = none) ∧
    (∀ e, (DisplayObject.ctor A c d H).1 = .error e → e = Fault.AllocationFailure) ∧
    (∀ a, A.pick H c = some a →
      (DisplayObject.ctor A c d H).1 = .ok { buffer := a, bufferSize := c } ∧
      (DisplayObject.dtor { buffer := a, bufferSize := c }
        (DisplayObject.ctor A c d H).2).1 = .ok ()) := by
  cases hp : A.pick H c with
  | none =>
    rw [ctor_none A c d H hp]
    refine ⟨⟨fun _ => rfl, fun _ => ⟨_, rfl⟩⟩, ?_, ?_⟩
    · intro e he
      simp only at he
      cases he
      rfl
    · intro a ha
      cases ha
  | some a =>
    rw [ctor_some A c d H a hp]
    refine ⟨⟨?_, ?_⟩, ?_, ?_⟩
    · rintro ⟨e, he⟩
      cases he
    · intro h
      cases h
    · intro e he
      cases he
    · intro a1 ha
      cases ha
      rw [dtor_after_ctor A c H a hp]
      exact ⟨rfl, rfl⟩

theorem ctor_fails_iff_witness :
    (bumpAllocator 64).pick { live := [], trace := [] } 0 = some 1 ∧
    (DisplayObject.ctor (bumpAllocator 64) 0 "" { live := [], trace := [] }).1 =
      .ok { buffer := 1, bufferSize := 0 } ∧
    (DisplayObject.dtor { buffer := 1, bufferSize := 0 }
      (DisplayObject.ctor (bumpAllocator 64) 0 "" { live := [], trace := [] }).2).1 = .ok () :=
  ⟨rfl, (ctor_fails_iff (bumpAllocator 64) 0 "" { live := [], trace := [] }).2.2 1 rfl⟩

/-- C6: when the allocator does not satisfy the request for `c` units, the
constructor returns `AllocationFailure` and no handle, the live blocks of the
free store are those from before the call, exactly one request has been made
to the allocator, and the program state gains no object. -/
theorem ctor_failure_atomic (A : Allocator) (c : Nat) (d : String) (W : World)
    (h : A.pick W.heap c = none) :
    DisplayObject.ctor A c d W.heap =
      (.error .AllocationFailure,
        { live := W.heap.live, trace := W.heap.trace ++ [.newArray c none] }) ∧
    step A W (.construct c d) =
      some { heap := { live := W.heap.live, trace := W.heap.trace ++ [.newArray c none] },
             objs := W.objs } := by
  refine ⟨ctor_none A c d W.heap h, ?_⟩
  simp [step, ctor_none A c d W.heap h]

theorem ctor_failure_atomic_witness :
    (bumpAllocator 8).pick World.init.heap 16 = none ∧
    DisplayObject.ctor (bumpAllocator 8) 16 "hi" World.init.heap =
      (.error .AllocationFailure,
        { live := [], trace := [.newArray 16 none] }) ∧
    step (bumpAllocator 8) World.init (.construct 16 "hi") =
      some { heap := { live := [], trace := [.newArray 16 none] }, objs := [] } :=
  ⟨rfl, ctor_failure_atomic (bumpAllocator 8) 16 "hi" World.init rfl⟩

/-! ## Facts about program states -/

theorem liveHandles_append (l1 l2 : List Lifecycle) :
    liveHandles (l1 ++ l2) = liveHandles l1 ++ liveHandles l2 := by
  induction l1 with
  | nil => rfl
  | cons s rest ih =>
    cases s with
    | live x => simp [liveHandles, ih]
    | destroyed => simp [liveHandles, ih]

theorem liveHandles_set_destroyed (l : List Lifecycle) (i : Nat) (x : DisplayObject)
    (h : l[i]? = some (.live x)) :
    ∃ l1 l2, liveHandles l = l1 ++ x :: l2 ∧
      liveHandles (l.set i .destroyed) = l1 ++ l2 := by
  induction l generalizing i with
  | nil => simp at h
  | cons s rest ih =>
    cases i with
    | zero =>
      simp at h
      subst h
      exact ⟨[], liveHandles rest, by simp [liveHandles], by simp [liveHandles]⟩
    | succ j =>
      simp at h
      obtain ⟨l1, l2, h1, h2⟩ := ih j h
      cases s with
      | live y =>
        exact ⟨y :: l1, l2, by simp [liveHandles, h1], by simp [liveHandles, h2]⟩
      | destroyed =>
        exact ⟨l1, l2, by simp [liveHandles, h1], by simp [liveHandles, h2]⟩

theorem mem_liveHandles_of_getElem? (l : List Lifecycle) (i : Nat) (x : DisplayObject)
    (h : l[i]? = some (.live x)) : x ∈ liveHandles l := by
  obtain ⟨l1, l2, h1, _⟩ := liveHandles_set_destroyed l i x h
  rw [h1]
  simp

theorem filter_remove_one (l : List Block) (p : Addr)
    (nd : (l.map Block.addr).Nodup) (hp : p ∈ l.map Block.addr) :
    ∃ b0 ∈ l, b0.addr = p ∧ l.Perm (b0 :: l.filter (fun b => b.addr != p)) := by
  induction l with
  | nil => simp at hp
  | cons c rest ih =>
    simp only [List.map_cons, List.nodup_cons] at nd
    by_cases hc : c.addr = p
    · refine ⟨c, List.mem_cons_self _ _, hc, ?_⟩
      have hrest : rest.filter (fun b => b.addr != p) = rest :=
        filter_addr_ne_of_not_mem rest p (hc ▸ nd.1)
      simp [List.filter_cons, hc, hrest]
    · have hp1 : p ∈ rest.map Block.addr := by
        rcases List.mem_cons.mp hp with h | h
        · exact absurd h.symm hc
        · exact h
      obtain ⟨b0, hb0, hb0p, hperm⟩ := ih nd.2 hp1
      refine ⟨b0, List.mem_cons_of_mem _ hb0, hb0p, ?_⟩
      have hf : (c :: rest).filter (fun b => b.addr != p) =
          c :: rest.filter (fun b => b.addr != p) := by
        simp [List.filter_cons, hc]
      rw [hf]
      exact (List.Perm.cons c hperm).trans (List.Perm.swap b0 c _)

theorem mem_filter_addr_ne (l : List Block) (p : Addr) (b : Block) :
    b ∈ l.filter (fun b => b.addr != p) ↔ b ∈ l ∧ b.addr ≠ p := by
  simp [List.mem_filter]

theorem WF_filter (H : Heap) (p : Addr) (t : List Event) (h : H.WF) :
    Heap.WF { live := H.live.filter (fun b => b.addr != p), trace := t } := by
  have hsub : (H.live.filter (fun b => b.addr != p)).Sublist H.live := List.filter_sublist _
  have hmap := hsub.map Block.addr
  exact ⟨fun hm => h.1 (hmap.subset hm), h.2.sublist hmap⟩

theorem step_destroy_live (A : Allocator) (W : World) (i : Nat) (x : DisplayObject)
    (hi : W.objs[i]? = some (.live x)) (h0 : x.buffer ≠ nullptr)
    (hlive : x.buffer ∈ W.heap.addrs) :
    step A W (.destroy i) =
      some { heap := { live := W.heap.live.filter (fun b => b.addr != x.buffer),
                       trace := W.heap.trace ++ [.deleteArray x.buffer] },
             objs := W.objs.set i .destroyed } := by
  simp [step, hi, DisplayObject.dtor, deleteArray_live x.buffer W.heap h0 hlive]

theorem step_construct_ok (A : Allocator) (W : World) (c : Nat) (d : String) (a : Addr)
    (h : A.pick W.heap c = some a) :
    step A W (.construct c d) =
      some { heap := { live := ⟨a, List.replicate c none⟩ :: W.heap.live,
                       trace := W.heap.trace ++ [.newArray c (some a)] },
             objs := W.objs ++ [.live { buffer := a, bufferSize := c }] } := by
  simp [step, ctor_some A c d W.heap a h]

theorem getElem?_lt_length (l : List Lifecycle) (i : Nat) (s : Lifecycle)
    (h : l[i]? = some s) : i < l.length := by
  obtain ⟨hlt, _⟩ := List.getElem?_eq_some_iff.mp h
  exact hlt

/-! ## Sole ownership is kept by the constructor and the destructor -/

theorem owned_buffer_live (W : World) (hown : W.Owned) (x : DisplayObject)
    (hx : x ∈ W.handles) : x.buffer ∈ W.heap.addrs ∧ x.buffer ≠ nullptr := by
  obtain ⟨b, hb, hba, _⟩ := hown.2.1 x hx
  have hmem : x.buffer ∈ W.heap.addrs := by
    rw [← hba]
    exact List.mem_map_of_mem Block.addr hb
  exact ⟨hmem, fun e => hown.1.1 (e ▸ hmem)⟩

theorem owned_init : World.init.Owned := by decide

theorem owned_construct_ok (A : Allocator) (W : World) (c : Nat) (a : Addr)
    (hown : W.Owned) (h : A.pick W.heap c = some a) (t : List Event) :
    World.Owned
      { heap := { live := ⟨a, List.replicate c none⟩ :: W.heap.live, trace := t },
        objs := W.objs ++ [.live { buffer := a, bufferSize := c }] } := by
  have h0 := A.nonnull W.heap c a h
  have hf := A.fresh W.heap c a h
  have hh : liveHandles (W.objs ++ [.live { buffer := a, bufferSize := c }]) =
      W.handles ++ [{ buffer := a, bufferSize := c }] := by
    rw [liveHandles_append]
    rfl
  refine ⟨⟨?_, ?_⟩, ?_, ?_⟩
  · intro hm
    rcases List.mem_cons.mp hm with e | hm1
    · exact h0 e.symm
    · exact hown.1.1 hm1
  · exact List.nodup_cons.mpr ⟨hf, hown.1.2⟩
  · intro y hy
    simp only [World.handles] at hy
    rw [hh] at hy
    rcases List.mem_append.mp hy with hy1 | hy1
    · obtain ⟨b, hb, hba, hbl⟩ := hown.2.1 y hy1
      exact ⟨b, List.mem_cons_of_mem _ hb, hba, hbl⟩
    · have hyx : y = { buffer := a, bufferSize := c } := by simpa using hy1
      subst hyx
      exact ⟨_, List.mem_cons_self _ _, rfl, by simp⟩
  · simp only [World.handles]
    rw [hh, List.map_append]
    refine List.Nodup.append hown.2.2 (List.nodup_singleton _) ?_
    intro q hq1 hq2
    have hqa : q = a := by simpa using hq2
    subst hqa
    obtain ⟨y, hy, hyq⟩ := List.mem_map.mp hq1
    have := (owned_buffer_live W hown y hy).1
    rw [hyq] at this
    exact hf this

theorem owned_destroy (W : World) (i : Nat) (x : DisplayObject) (hown : W.Owned)
    (hi : W.objs[i]? = some (.live x)) (t : List Event) :
    World.Owned
      { heap := { live := W.heap.live.filter (fun b => b.addr != x.buffer), trace := t },
        objs := W.objs.set i .destroyed } := by
  obtain ⟨l1, l2, h1, h2⟩ := liveHandles_set_destroyed W.objs i x hi
  have hnd : (List.map DisplayObject.buffer (l1 ++ x :: l2)).Nodup := by
    have := hown.2.2
    simp only [World.handles] at this
    rw [h1] at this
    exact this
  rw [List.map_append, List.map_cons, List.nodup_middle, List.nodup_cons,
    ← List.map_append] at hnd
  refine ⟨WF_filter W.heap x.buffer t hown.1, ?_, ?_⟩
  · intro y hy
    simp only [World.handles] at hy
    rw [h2] at hy
    have hyW : y ∈ W.handles := by
      simp only [World.handles]
      rw [h1]
      rcases List.mem_append.mp hy with h | h
      · exact List.mem_append_left _ h
      · exact List.mem_append_right _ (List.mem_cons_of_mem _ h)
    obtain ⟨b, hb, hba, hbl⟩ := hown.2.1 y hyW
    have hne : b.addr ≠ x.buffer := by
      intro e
      apply hnd.1
      rw [← e, hba]
      exact List.mem_map_of_mem DisplayObject.buffer hy
    exact ⟨b, (mem_filter_addr_ne W.heap.live x.buffer b).mpr ⟨hb, hne⟩, hba, hbl⟩
  · simp only [World.handles]
    rw [h2]
    exact hnd.2

theorem owned_step (A : Allocator) (W W1 : World) (op : Op) (hown : W.Owned)
    (hdecl : op.isDeclared = true) (h : step A W op = some W1) : W1.Owned := by
  cases op with
  | construct c d =>
    cases hp : A.pick W.heap c with
    | none =>
      rw [(show step A W (.construct c d) = some
        { heap := { live := W.heap.live, trace := W.heap.trace ++ [.newArray c none] },
          objs := W.objs } by simp [step, ctor_none A c d W.heap hp])] at h
      cases h
      exact hown
    | some a =>
      rw [step_construct_ok A W c d a hp] at h
      cases h
      exact owned_construct_ok A W c a hown hp _
  | copy src => cases hdecl
  | destroy i =>
    cases hs : W.objs[i]? with
    | none => simp [step, hs] at h
    | some s =>
      cases s with
      | destroyed => simp [step, hs] at h
      | live x =>
        have hx := owned_buffer_live W hown x (mem_liveHandles_of_getElem? W.objs i x hs)
        rw [step_destroy_live A W i x hs hx.2 hx.1] at h
        cases h
        exact owned_destroy W i x hown hs _

theorem owned_run (A : Allocator) (ops : List Op) (W W1 : World) (hown : W.Owned)
    (hdecl : ∀ op ∈ ops, op.isDeclared = true) (h : run A ops W = some W1) :
    W1.Owned := by
  induction ops generalizing W with
  | nil =>
    simp only [run] at h
    cases h
    exact hown
  | cons op rest ih =>
    simp only [run] at h
    cases hs : step A W op with
    | none => simp [hs] at h
    | some Wm =>
      simp only [hs] at h
      exact ih Wm (owned_step A W Wm op hown (hdecl op (List.mem_cons_self _ _)) hs)
        (fun o ho => hdecl o (List.mem_cons_of_mem _ ho)) h

/-! ## What one operation does to one object -/

theorem step_slot (A : Allocator) (W W1 : World) (op : Op) (i : Nat) (s : Lifecycle)
    (h : step A W op = some W1) (hi : W.objs[i]? = some s) :
    W1.objs[i]? = some s ∨
      (op = .destroy i ∧ (∃ x, s = .live x) ∧ W1.objs[i]? = some .destroyed) := by
  have hlt := getElem?_lt_length W.objs i s hi
  cases op with
  | construct c d =>
    left
    cases hp : A.pick W.heap c with
    | none =>
      simp [step, ctor_none A c d W.heap hp] at h
      rw [← h]
      exact hi
    | some a =>
      rw [step_construct_ok A W c d a hp] at h
      cases h
      simp only
      rw [List.getElem?_append_left hlt]
      exact hi
  | copy src =>
    left
    cases hs : W.objs[src]? with
    | none => simp [step, hs] at h
    | some s1 =>
      cases s1 with
      | destroyed => simp [step, hs] at h
      | live x =>
        simp [step, hs] at h
        rw [← h]
        simp only
        rw [List.getElem?_append_left hlt]
        exact hi
  | destroy j =>
    cases hs : W.objs[j]? with
    | none => simp [step, hs] at h
    | some s1 =>
      cases s1 with
      | destroyed => simp [step, hs] at h
      | live x =>
        simp only [step, hs] at h
        cases hd : x.dtor W.heap with
        | mk r H1 =>
          cases r with
          | error e => simp [hd] at h
          | ok u =>
            simp only [hd] at h
            cases h
            simp only
            by_cases hji : j = i
            · right
              subst hji
              rw [hi] at hs
              cases hs
              exact ⟨rfl, ⟨x, rfl⟩, List.getElem?_set_self hlt⟩
            · left
              rw [List.getElem?_set_ne hji]
              exact hi

theorem run_slot (A : Allocator) (ops : List Op) (W W1 : World) (i : Nat) (s : Lifecycle)
    (h : run A ops W = some W1) (hi : W.objs[i]? = some s) :
    W1.objs[i]? = some s ∨ W1.objs[i]? = some .destroyed := by
  induction ops generalizing W s with
  | nil =>
    simp only [run] at h
    cases h
    exact Or.inl hi
  | cons op rest ih =>
    simp only [run] at h
    cases hs : step A W op with
    | none => simp [hs] at h
    | some Wm =>
      simp only [hs] at h
      rcases step_slot A W Wm op i s hs hi with h1 | ⟨_, _, h1⟩
      · exact ih Wm s h h1
      · rcases ih Wm .destroyed h h1 with h2 | h2
        · exact Or.inr h2
        · exact Or.inr h2

/-- C8: an object has two lifecycle states.  A construction the allocator
satisfies adds a live object whose block is live.  Destroying a live object
whose block is live is always defined, whatever capacity the handle records,
and makes the object destroyed; the destructor's outcome depends on the
handle's block only, not on the recorded capacity.  A destroyed object stays
destroyed under every operation and cannot be destroyed again.  A live object
is left as it is by every operation except its own destruction, which makes it
destroyed. -/
theorem lifecycle_two_states (A : Allocator) (W : World) :
    (∀ c d a, A.pick W.heap c = some a →
      ∃ W1, step A W (.construct c d) = some W1 ∧
        W1.objs[W.objs.length]? = some (.live { buffer := a, bufferSize := c }) ∧
        a ∈ W1.heap.addrs ∧ (W.heap.WF → W1.heap.WF)) ∧
    (∀ i x, W.heap.WF → W.objs[i]? = some (.live x) → x.buffer ∈ W.heap.addrs →
      ∃ W1, step A W (.destroy i) = some W1 ∧ W1.objs[i]? = some .destroyed) ∧
    (∀ (x y : DisplayObject) (H : Heap), x.buffer = y.buffer → x.dtor H = y.dtor H) ∧
    (∀ (op : Op) (W1 : World) (i : Nat), step A W op = some W1 →
      W.objs[i]? = some Lifecycle.destroyed → W1.objs[i]? = some Lifecycle.destroyed) ∧
    (∀ i : Nat, W.objs[i]? = some Lifecycle.destroyed → step A W (.destroy i) = none) ∧
    (∀ (op : Op) (W1 : World) (i : Nat) (x : DisplayObject), step A W op = some W1 →
      W.objs[i]? = some (Lifecycle.live x) →
      W1.objs[i]? = some (Lifecycle.live x) ∨
        (op = .destroy i ∧ W1.objs[i]? = some Lifecycle.destroyed)) := by
  refine ⟨?_, ?_, ?_, ?_, ?_, ?_⟩
  · intro c d a hp
    refine ⟨_, step_construct_ok A W c d a hp, ?_, ?_, ?_⟩
    · exact List.getElem?_concat_length _ _
    · simp [Heap.addrs]
    · intro hwf
      refine ⟨?_, List.nodup_cons.mpr ⟨A.fresh W.heap c a hp, hwf.2⟩⟩
      intro hm
      rcases List.mem_cons.mp hm with e | hm1
      · exact A.nonnull W.heap c a hp e.symm
      · exact hwf.1 hm1
  · intro i x hwf hi hlive
    have h0 : x.buffer ≠ nullptr := fun e => hwf.1 (e ▸ hlive)
    exact ⟨_, step_destroy_live A W i x hi h0 hlive,
      List.getElem?_set_self (getElem?_lt_length W.objs i _ hi)⟩
  · intro x y H hxy
    simp [DisplayObject.dtor, hxy]
  · intro op W1 i hs hi
    rcases step_slot A W W1 op i .destroyed hs hi with h1 | ⟨_, ⟨x, hx⟩, _⟩
    · exact h1
    · cases hx
  · intro i hi
    simp [step, hi]
  · intro op W1 i x hs hi
    rcases step_slot A W W1 op i (.live x) hs hi with h1 | ⟨h1, _, h2⟩
    · exact Or.inl h1
    · exact Or.inr ⟨h1, h2⟩

theorem lifecycle_two_states_witness :
    (∃ W1, step (bumpAllocator 64) World.init (.construct 16 "hi") = some W1 ∧
      W1.objs[0]? = some (.live { buffer := 1, bufferSize := 16 }) ∧
      1 ∈ W1.heap.addrs ∧ (World.init.heap.WF → W1.heap.WF)) ∧
    (∃ W1, step (bumpAllocator 64)
        { heap := { live := [⟨1, List.replicate 16 none⟩], trace := [] },
          objs := [.live ⟨1, 16⟩] } (.destroy 0) = some W1 ∧
      W1.objs[0]? = some .destroyed) :=
  ⟨(lifecycle_two_states (bumpAllocator 64) World.init).1 16 "hi" 1 rfl,
   (lifecycle_two_states (bumpAllocator 64)
      { heap := { live := [⟨1, List.replicate 16 none⟩], trace := [] },
        objs := [.live ⟨1, 16⟩] }).2.1 0 ⟨1, 16⟩ (by decide) rfl (by decide)⟩

/-! ## The capacity of a handle -/

/-- C1: let a construction with capacity `c` succeed.  The handle records
`bufferSize = c`, its block is live with exactly `c` cells, no live block at
its address has another number of cells, and the one request made to the free
store was for exactly `c` units.  When the state before was under sole
ownership, then after any further sequence of constructions and destructions
the object is either destroyed or still holds the same handle, and in that
case the block at the handle's address is live and every live block at that
address has exactly `c` cells. -/
theorem capacity_fixed (A : Allocator) (W : World) (c : Nat) (d : String)
    (x : DisplayObject) (H1 : Heap)
    (hctor : DisplayObject.ctor A c d W.heap = (.ok x, H1)) :
    x.bufferSize = c ∧
    (⟨x.buffer, List.replicate c none⟩ : Block) ∈ H1.live ∧
    (∀ b ∈ H1.live, b.addr = x.buffer → b.cells.length = c) ∧
    H1.trace = W.heap.trace ++ [.newArray c (some x.buffer)] ∧
    (W.Owned → ∀ (ops : List Op) (W2 : World), (∀ op ∈ ops, op.isDeclared = true) →
      run A ops { heap := H1, objs := W.objs ++ [.live x] } = some W2 →
      W2.objs[W.objs.length]? = some Lifecycle.destroyed ∨
        (W2.objs[W.objs.length]? = some (Lifecycle.live x) ∧
          (∃ b ∈ W2.heap.live, b.addr = x.buffer) ∧
          ∀ b ∈ W2.heap.live, b.addr = x.buffer → b.cells.length = c)) := by
  cases hp : A.pick W.heap c with
  | none =>
    rw [ctor_none A c d W.heap hp] at hctor
    cases hctor
  | some a =>
    have hf := A.fresh W.heap c a hp
    rw [ctor_some A c d W.heap a hp] at hctor
    cases hctor
    refine ⟨rfl, List.mem_cons_self _ _, ?_, rfl, ?_⟩
    · intro b hb hba
      rcases List.mem_cons.mp hb with rfl | hb1
      · simp
      · have hba1 : b.addr = a := hba
        exact absurd (by rw [← hba1]; exact List.mem_map_of_mem Block.addr hb1) hf
    · intro hown ops W2 hdecl hrun
      have hown1 := owned_construct_ok A W c a hown hp
        (W.heap.trace ++ [.newArray c (some a)])
      have hown2 := owned_run A ops _ W2 hown1 hdecl hrun
      have hslot := run_slot A ops _ W2 W.objs.length
        (.live { buffer := a, bufferSize := c }) hrun
        (List.getElem?_concat_length _ _)
      rcases hslot with hl | hd
      · right
        have hmem := mem_liveHandles_of_getElem? W2.objs _ _ hl
        obtain ⟨b, hb, hba, hbl⟩ := hown2.2.1 _ hmem
        refine ⟨hl, ⟨b, hb, hba⟩, ?_⟩
        intro b1 hb1 hb1a
        have hbb : b1 = b :=
          List.inj_on_of_nodup_map hown2.1.2 hb1 hb (hb1a.trans hba.symm)
        rw [hbb]
        exact hbl
      · exact Or.inl hd

theorem capacity_fixed_witness :
    DisplayObject.ctor (bumpAllocator 64) 16 "hi" World.init.heap =
      (.ok ⟨1, 16⟩,
        { live := [⟨1, List.replicate 16 none⟩], trace := [.newArray 16 (some 1)] }) ∧
    (⟨1, 16⟩ : DisplayObject).bufferSize = 16 ∧
    run (bumpAllocator 64) [.construct 4 "", .destroy 1]
        { heap := { live := [⟨1, List.replicate 16 none⟩],
                    trace := [.newArray 16 (some 1)] },
          objs := [.live ⟨1, 16⟩] } =
      some { heap := { live := [⟨1, List.replicate 16 none⟩],
                       trace := [.newArray 16 (some 1), .newArray 4 (some 18),
                                 .deleteArray 18] },
             objs := [.live ⟨1, 16⟩, .destroyed] } ∧
    ((([Lifecycle.live ⟨1, 16⟩, .destroyed] : List Lifecycle)[0]? =
        some Lifecycle.destroyed) ∨
      ((([Lifecycle.live ⟨1, 16⟩, .destroyed] : List Lifecycle)[0]? =
          some (Lifecycle.live ⟨1, 16⟩)) ∧
        (∃ b ∈ [(⟨1, List.replicate 16 none⟩ : Block)], b.addr = 1) ∧
        ∀ b ∈ [(⟨1, List.replicate 16 none⟩ : Block)], b.addr = 1 →
          b.cells.length = 16)) :=
  have h := capacity_fixed (bumpAllocator 64) World.init 16 "hi" ⟨1, 16⟩
    { live := [⟨1, List.replicate 16 none⟩], trace := [.newArray 16 (some 1)] } rfl
  ⟨rfl, h.1, rfl,
    h.2.2.2.2 owned_init [.construct 4 "", .destroy 1]
      { heap := { live := [⟨1, List.replicate 16 none⟩],
                  trace := [.newArray 16 (some 1), .newArray 4 (some 18),
                            .deleteArray 18] },
        objs := [.live ⟨1, 16⟩, .destroyed] }
      (by decide) rfl⟩

/-! ## Many handles, destroyed in any order -/

theorem filter_filter_addr (l : List Block) (a : Addr) (qs : List Addr) :
    (l.filter (fun b => b.addr != a)).filter (fun b => !qs.contains b.addr) =
      l.filter (fun b => !(a :: qs).contains b.addr) := by
  rw [List.filter_filter]
  apply List.filter_congr
  intro b _
  by_cases h : b.addr = a
  · simp [h]
  · have h1 : ¬ a = b.addr := fun e => h e.symm
    simp [h, h1]

theorem filter_filter_addr_comm (l : List Block) (a : Addr) (qs : List Addr) :
    (l.filter (fun b => !qs.contains b.addr)).filter (fun b => b.addr != a) =
      l.filter (fun b => !(a :: qs).contains b.addr) := by
  rw [List.filter_filter]
  apply List.filter_congr
  intro b _
  by_cases h : b.addr = a
  · simp [h]
  · have h1 : ¬ a = b.addr := fun e => h e.symm
    simp [h, h1]

theorem destroyAll_ok (p : List DisplayObject) (H : Heap)
    (hnd : (p.map DisplayObject.buffer).Nodup)
    (hnn : ∀ x ∈ p, x.buffer ≠ nullptr)
    (hlive : ∀ x ∈ p, x.buffer ∈ H.addrs) :
    destroyAll p H =
      (.ok (),
        { live := H.live.filter (fun b => !(p.map DisplayObject.buffer).contains b.addr),
          trace := H.trace ++ p.map (fun x => Event.deleteArray x.buffer) }) := by
  induction p generalizing H with
  | nil => simp [destroyAll]
  | cons x rest ih =>
    simp only [List.map_cons, List.nodup_cons] at hnd
    have hx0 := hnn x (List.mem_cons_self _ _)
    have hxl := hlive x (List.mem_cons_self _ _)
    simp only [destroyAll, DisplayObject.dtor, deleteArray_live x.buffer H hx0 hxl]
    rw [ih _ hnd.2 (fun y hy => hnn y (List.mem_cons_of_mem _ hy))]
    · simp only [filter_filter_addr, List.map_cons, List.append_assoc, List.singleton_append]
    · intro y hy
      obtain ⟨b, hb, hba⟩ := List.mem_map.mp (hlive y (List.mem_cons_of_mem _ hy))
      have hne : b.addr ≠ x.buffer := by
        intro e
        apply hnd.1
        rw [← e, hba]
        exact List.mem_map_of_mem DisplayObject.buffer hy
      exact List.mem_map.mpr ⟨b, (mem_filter_addr_ne H.live x.buffer b).mpr ⟨hb, hne⟩, hba⟩

theorem constructAll_ok (A : Allocator) (reqs : List (Nat × String)) (H0 H1 : Heap)
    (xs : List DisplayObject) (h : constructAll A reqs H0 = (.ok xs, H1)) :
    xs.map DisplayObject.bufferSize = reqs.map Prod.fst ∧
    (xs.map DisplayObject.buffer).Nodup ∧
    (∀ x ∈ xs, x.buffer ≠ nullptr ∧ x.buffer ∈ H1.addrs ∧ x.buffer ∉ H0.addrs) ∧
    (∀ q ∈ H0.addrs, q ∈ H1.addrs) ∧
    H1.live.filter (fun b => !(xs.map DisplayObject.buffer).contains b.addr) = H0.live := by
  induction reqs generalizing H0 xs with
  | nil =>
    simp only [constructAll] at h
    cases h
    simp
  | cons r rest ih =>
    obtain ⟨n, d⟩ := r
    simp only [constructAll] at h
    cases hp : A.pick H0 n with
    | none => simp [ctor_none A n d H0 hp] at h
    | some a =>
      have h0 := A.nonnull H0 n a hp
      have hf := A.fresh H0 n a hp
      simp only [ctor_some A n d H0 a hp] at h
      cases hr : constructAll A rest
          { live := ⟨a, List.replicate n none⟩ :: H0.live,
            trace := H0.trace ++ [.newArray n (some a)] } with
      | mk res H2 =>
        cases res with
        | error e => simp [hr] at h
        | ok ys =>
          simp only [hr] at h
          cases h
          obtain ⟨i1, i2, i3, i4, i5⟩ := ih _ ys hr
          have ha1 : a ∈ H1.addrs := i4 a (by simp [Heap.addrs])
          refine ⟨by simp [i1], ?_, ?_, ?_, ?_⟩
          · simp only [List.map_cons, List.nodup_cons]
            refine ⟨?_, i2⟩
            intro hm
            obtain ⟨y, hy, hya⟩ := List.mem_map.mp hm
            exact (i3 y hy).2.2 (by simp [Heap.addrs, hya])
          · intro y hy
            rcases List.mem_cons.mp hy with rfl | hy1
            · exact ⟨h0, ha1, hf⟩
            · refine ⟨(i3 y hy1).1, (i3 y hy1).2.1, ?_⟩
              intro hm
              exact (i3 y hy1).2.2 (by simp [Heap.addrs] at hm ⊢; exact Or.inr hm)
          · intro q hq
            exact i4 q (by simp [Heap.addrs] at hq ⊢; exact Or.inr hq)
          · simp only [List.map_cons]
            rw [← filter_filter_addr_comm, i5]
            simp only
            have hl : H0.live.filter (fun b => b.addr != a) = H0.live :=
              filter_addr_ne_of_not_mem H0.live a hf
            simp [List.filter_cons, hl]

/-- C7: let the `N` constructions of a list of requests all succeed, from a
free store `H0`, leaving the free store `H1`.  Then there are `N` handles, on
`N` different blocks, and destroying them in any order is without fault, makes
exactly `N` releases, one of each handle's block, in the order of
destruction, and leaves the live blocks of `H0`, whatever the order. -/
theorem destroyAll_any_order (A : Allocator) (reqs : List (Nat × String))
    (H0 H1 : Heap) (xs p : List DisplayObject)
    (hc : constructAll A reqs H0 = (.ok xs, H1)) (hp : p.Perm xs) :
    xs.length = reqs.length ∧
    (xs.map DisplayObject.buffer).Nodup ∧
    destroyAll p H1 =
      (.ok (), { live := H0.live,
                 trace := H1.trace ++ p.map (fun x => Event.deleteArray x.buffer) }) := by
  obtain ⟨i1, i2, i3, _, i5⟩ := constructAll_ok A reqs H0 H1 xs hc
  refine ⟨?_, i2, ?_⟩
  · have := congrArg List.length i1
    simpa using this
  · have hnd : (p.map DisplayObject.buffer).Nodup :=
      ((hp.map DisplayObject.buffer).nodup_iff).mpr i2
    rw [destroyAll_ok p H1 hnd (fun x hx => (i3 x (hp.subset hx)).1)
      (fun x hx => (i3 x (hp.subset hx)).2.1)]
    have hfl : H1.live.filter (fun b => !(p.map DisplayObject.buffer).contains b.addr) =
        H1.live.filter (fun b => !(xs.map DisplayObject.buffer).contains b.addr) := by
      apply List.filter_congr
      intro b _
      have hiff : b.addr ∈ p.map DisplayObject.buffer ↔
          b.addr ∈ xs.map DisplayObject.buffer := (hp.map DisplayObject.buffer).mem_iff
      by_cases hm : b.addr ∈ xs.map DisplayObject.buffer
      · have hm1 := hiff.mpr hm
        simp [List.elem_eq_mem, hm, hm1]
      · have hm1 : ¬ b.addr ∈ p.map DisplayObject.buffer := fun e => hm (hiff.mp e)
        simp [List.elem_eq_mem, hm, hm1]
    rw [hfl, i5]

theorem destroyAll_any_order_witness :
    constructAll (bumpAllocator 64) [(4, ""), (2, "hi"), (0, "")]
        { live := [], trace := [] } =
      (.ok [⟨1, 4⟩, ⟨6, 2⟩, ⟨9, 0⟩],
        { live := [⟨9, []⟩, ⟨6, [none, none]⟩, ⟨1, [none, none, none, none]⟩],
          trace := [.newArray 4 (some 1), .newArray 2 (some 6), .newArray 0 (some 9)] }) ∧
    [(⟨1, 4⟩ : DisplayObject), ⟨6, 2⟩, ⟨9, 0⟩].length = 3 ∧
    destroyAll [⟨6, 2⟩, ⟨9, 0⟩, ⟨1, 4⟩]
        { live := [⟨9, []⟩, ⟨6, [none, none]⟩, ⟨1, [none, none, none, none]⟩],
          trace := [.newArray 4 (some 1), .newArray 2 (some 6), .newArray 0 (some 9)] } =
      (.ok (),
        { live := [],
          trace := [.newArray 4 (some 1), .newArray 2 (some 6), .newArray 0 (some 9),
                    .deleteArray 6, .deleteArray 9, .deleteArray 1] }) :=
  have h := destroyAll_any_order (bumpAllocator 64) [(4, ""), (2, "hi"), (0, "")]
    { live := [], trace := [] }
    { live := [⟨9, []⟩, ⟨6, [none, none]⟩, ⟨1, [none, none, none, none]⟩],
      trace := [.newArray 4 (some 1), .newArray 2 (some 6), .newArray 0 (some 9)] }
    [⟨1, 4⟩, ⟨6, 2⟩, ⟨9, 0⟩] [⟨6, 2⟩, ⟨9, 0⟩, ⟨1, 4⟩] rfl (by decide)
  ⟨rfl, h.1, h.2.2⟩

/-! ## Copies share the block -/

/-- C3, evaluated on the program
`DisplayObject a(4); DisplayObject b(a);` followed by the end of both
lifetimes: after the copy the two live handles hold the same block, so sole
ownership fails; the destruction of `b` releases the block; the destructor of
`a` then releases a block that is no longer live, which is undefined, and the
program has no defined outcome. -/
theorem copy_shares_block :
    run (bumpAllocator 64) [.construct 4 "", .copy 0] World.init =
      some { heap := { live := [⟨1, [none, none, none, none]⟩],
                       trace := [.newArray 4 (some 1)] },
             objs := [.live ⟨1, 4⟩, .live ⟨1, 4⟩] } ∧
    ¬ World.Owned
      { heap := { live := [⟨1, [none, none, none, none]⟩],
                  trace := [.newArray 4 (some 1)] },
        objs := [.live ⟨1, 4⟩, .live ⟨1, 4⟩] } ∧
    run (bumpAllocator 64) [.construct 4 "", .copy 0, .destroy 1] World.init =
      some { heap := { live := [], trace := [.newArray 4 (some 1), .deleteArray 1] },
             objs := [.live ⟨1, 4⟩, .destroyed] } ∧
    DisplayObject.dtor ⟨1, 4⟩
        { live := [], trace := [.newArray 4 (some 1), .deleteArray 1] } =
      (.error .InvalidRelease,
        { live := [], trace := [.newArray 4 (some 1), .deleteArray 1] }) ∧
    run (bumpAllocator 64) [.construct 4 "", .copy 0, .destroy 1, .destroy 0]
      World.init = none := by
  refine ⟨rfl, by decide, rfl, rfl, rfl⟩

/-! ## The frame of destruction -/

/-- C9: in a well-formed free store, destroying a live handle whose block is
live is defined; the live blocks before are, up to order, the handle's block
followed by the live blocks after; a block is live after exactly when it was
live before and is not at the handle's address; the destroyed object becomes
destroyed and every other object, with its recorded block and capacity, is
what it was. -/
theorem destroy_frame (A : Allocator) (W : World) (i : Nat) (x : DisplayObject)
    (hwf : W.heap.WF) (hi : W.objs[i]? = some (.live x))
    (hlive : x.buffer ∈ W.heap.addrs) :
    ∃ W1, step A W (.destroy i) = some W1 ∧
      (∃ b0 ∈ W.heap.live, b0.addr = x.buffer ∧ W.heap.live.Perm (b0 :: W1.heap.live)) ∧
      (∀ b, b ∈ W1.heap.live ↔ b ∈ W.heap.live ∧ b.addr ≠ x.buffer) ∧
      W1.heap.live.length + 1 = W.heap.live.length ∧
      W1.objs[i]? = some .destroyed ∧
      (∀ j, j ≠ i → W1.objs[j]? = W.objs[j]?) := by
  have h0 : x.buffer ≠ nullptr := fun e => hwf.1 (e ▸ hlive)
  refine ⟨_, step_destroy_live A W i x hi h0 hlive, ?_, ?_, ?_, ?_, ?_⟩
  · exact filter_remove_one W.heap.live x.buffer hwf.2 hlive
  · intro b
    exact mem_filter_addr_ne W.heap.live x.buffer b
  · obtain ⟨b0, _, _, hperm⟩ := filter_remove_one W.heap.live x.buffer hwf.2 hlive
    have := hperm.length_eq
    simp only [List.length_cons] at this
    exact this.symm
  · exact List.getElem?_set_self (getElem?_lt_length W.objs i _ hi)
  · intro j hj
    exact List.getElem?_set_ne (Ne.symm hj)

theorem destroy_frame_witness :
    ∃ W1, step (bumpAllocator 64)
        { heap := { live := [⟨7, [none, none]⟩, ⟨1, [none, none, none]⟩], trace := [] },
          objs := [.live ⟨1, 3⟩, .live ⟨7, 2⟩] } (.destroy 0) = some W1 ∧
      (∃ b0 ∈ [(⟨7, [none, none]⟩ : Block), ⟨1, [none, none, none]⟩], b0.addr = 1 ∧
        [(⟨7, [none, none]⟩ : Block), ⟨1, [none, none, none]⟩].Perm (b0 :: W1.heap.live)) ∧
      (∀ b, b ∈ W1.heap.live ↔
        b ∈ [(⟨7, [none, none]⟩ : Block), ⟨1, [none, none, none]⟩] ∧ b.addr ≠ 1) ∧
      W1.heap.live.length + 1 = 2 ∧
      W1.objs[0]? = some .destroyed ∧
      (∀ j, j ≠ 0 → W1.objs[j]? = [Lifecycle.live ⟨1, 3⟩, .live ⟨7, 2⟩][j]?) :=
  destroy_frame (bumpAllocator 64)
    { heap := { live := [⟨7, [none, none]⟩, ⟨1, [none, none, none]⟩], trace := [] },
      objs := [.live ⟨1, 3⟩, .live ⟨7, 2⟩] } 0 ⟨1, 3⟩
    (by decide) rfl (by decide)

end XBee
